import Mathlib

/-!
Verification of `fusion_tcv/transforms.py`: transforms turning error
measurements into rewards for reinforcement learning.

The Python code computes on IEEE floats.  We embed float values as an
inductive type `Transforms.Flt` over the real numbers with explicit
not-a-number and signed-infinity constructors, and model the Python
operations the source uses (`math.isnan`, builtin `min`/`max` of two
arguments, `+`, unary `-`, `abs`, `math.exp`, `math.log`, `**`, `/`)
faithfully on that type, including their exceptional behaviour:

* Python float division by zero raises `ZeroDivisionError`, so
  `scale_value` is `Option`-valued and returns `none` when
  `old_max - old_min = 0` (the denominator of its single division);
* `math.log` raises `ValueError` on arguments `<= 0` (and on `-inf`)
  and returns `nan` on `nan`, so `pylog` is `Option`-valued;
* Python's float `**` returns `1.0` whenever the exponent is `0`
  (including `nan ** 0 == 1.0`), raises `ZeroDivisionError` for
  `0.0 ** negative`, and returns a *complex* number for a negative
  finite base with a non-integral exponent; the result type `FRes`
  has a dedicated `cplx` constructor for that last case;
* finite-precision rounding and overflow of finite intermediate values
  are idealized away: a finite float is an exact real number, and
  `math.exp` on a finite argument is the exact real exponential.

A transform application (`__call__`, a list comprehension) is an
element-wise map that propagates the first raised exception, modelled by
`mapOpt` / `applyTransform` returning `Option (List FRes)`.
-/

namespace Transforms

/-- A Python float: not-a-number, `+inf`, `-inf`, or a finite value
(idealized as an exact real number). -/
inductive Flt where
  | nan : Flt
  | pinf : Flt
  | ninf : Flt
  | fin : ℝ → Flt

/-- The result of one element-wise transform computation: a float, or the
complex number `re + im*i` (only Python's `**` can produce this, on a
negative finite base with a non-integral exponent). -/
inductive FRes where
  | flt : Flt → FRes
  | cplx : ℝ → ℝ → FRes

/-- Models Python's `math.isnan`. -/
def pyisnan : Flt → Bool
  | Flt.nan => true
  | _ => false

/-- Models Python's builtin `min(b, v)` for a finite float `b`: returns `v`
if `v < b`, else `b` (comparisons against `nan` are false, so `min` returns
its first argument when the second is `nan`). -/
noncomputable def pymin (b : ℝ) : Flt → Flt
  | Flt.nan => Flt.fin b
  | Flt.pinf => Flt.fin b
  | Flt.ninf => Flt.ninf
  | Flt.fin x => if x < b then Flt.fin x else Flt.fin b

/-- Models Python's builtin `max(b, v)` for a finite float `b`: returns `v`
if `b < v`, else `b`. -/
noncomputable def pymax (b : ℝ) : Flt → Flt
  | Flt.nan => Flt.fin b
  | Flt.pinf => Flt.pinf
  | Flt.ninf => Flt.fin b
  | Flt.fin x => if b < x then Flt.fin x else Flt.fin b

/-- Models Python's unary `-` on a float. -/
noncomputable def pyneg : Flt → Flt
  | Flt.nan => Flt.nan
  | Flt.pinf => Flt.ninf
  | Flt.ninf => Flt.pinf
  | Flt.fin x => Flt.fin (-x)

/-- Models Python's `abs` on a float. -/
noncomputable def pyabs : Flt → Flt
  | Flt.nan => Flt.nan
  | Flt.pinf => Flt.pinf
  | Flt.ninf => Flt.pinf
  | Flt.fin x => Flt.fin |x|

/-- Models Python's float `+` with a finite right operand. -/
noncomputable def pyaddR : Flt → ℝ → Flt
  | Flt.nan, _ => Flt.nan
  | Flt.pinf, _ => Flt.pinf
  | Flt.ninf, _ => Flt.ninf
  | Flt.fin x, r => Flt.fin (x + r)

/-- Models Python's `2 * v` on a float (the literal constant used by
`SoftPlusReward`). -/
noncomputable def pymul2 : Flt → Flt
  | Flt.nan => Flt.nan
  | Flt.pinf => Flt.pinf
  | Flt.ninf => Flt.ninf
  | Flt.fin x => Flt.fin (2 * x)

/-- Models Python's `math.exp` on a float.  `math.exp(nan) = nan`,
`math.exp(inf) = inf`, `math.exp(-inf) = 0.0`; on a finite argument the
exact real exponential (the finite-range `OverflowError` of IEEE doubles
is idealized away). -/
noncomputable def pyexp : Flt → Flt
  | Flt.nan => Flt.nan
  | Flt.pinf => Flt.pinf
  | Flt.ninf => Flt.fin 0
  | Flt.fin x => Flt.fin (Real.exp x)

/-- Models Python's `math.log` on a float.  `math.log(nan) = nan`,
`math.log(inf) = inf`; raises `ValueError` (here: `none`) on `-inf` and
on every finite argument `<= 0`. -/
noncomputable def pylog : Flt → Option Flt
  | Flt.nan => some Flt.nan
  | Flt.pinf => some Flt.pinf
  | Flt.ninf => none
  | Flt.fin x => if x ≤ 0 then none else some (Flt.fin (Real.log x))

/-- Models Python's float `**` with a finite exponent `p` (the exponent is
a construction parameter of `PowerReward`).  Python semantics:
`x ** 0 == 1.0` for every float `x` including `nan` and the infinities;
`nan ** p == nan` for `p ≠ 0`; `0.0 ** p` is `0.0` for `p > 0` and raises
`ZeroDivisionError` (here `none`) for `p < 0`; a positive base gives the
real power; a negative finite base gives the real power `x ^ n` when `p`
is an integer `n` and otherwise the principal *complex* power
`|x|^p * (cos(pi*p) + i*sin(pi*p))`. -/
noncomputable def pypow (v : Flt) (p : ℝ) : Option FRes :=
  if p = 0 then some (FRes.flt (Flt.fin 1))
  else
    match v with
    | Flt.nan => some (FRes.flt Flt.nan)
    | Flt.pinf => some (FRes.flt (if 0 < p then Flt.pinf else Flt.fin 0))
    | Flt.ninf =>
        some (FRes.flt (if 0 < p then
          (if (⌊p⌋ : ℝ) = p ∧ Odd ⌊p⌋ then Flt.ninf else Flt.pinf)
          else Flt.fin 0))
    | Flt.fin x =>
        if x = 0 then
          (if 0 < p then some (FRes.flt (Flt.fin 0)) else none)
        else if 0 < x then some (FRes.flt (Flt.fin (Real.rpow x p)))
        else if (⌊p⌋ : ℝ) = p then some (FRes.flt (Flt.fin (x ^ ⌊p⌋)))
        else some (FRes.cplx (Real.rpow (-x) p * Real.cos (Real.pi * p))
                             (Real.rpow (-x) p * Real.sin (Real.pi * p)))

/-- `clip_value(value, min_val, max_val)` from the source: returns `value`
unchanged when it is `nan`, else `max(min_val, min(max_val, value))`. -/
noncomputable def clip_value (value : Flt) (min_val max_val : ℝ) : Flt :=
  if pyisnan value then value else pymax min_val (pymin max_val value)

/-- `scale_value(value, old_min, old_max, new_min, new_max)` from the
source: `new_min + (value - old_min) * (new_max - new_min) / (old_max -
old_min)`.  Python float division raises `ZeroDivisionError` when the
denominator is zero — even when the numerator is `nan` or infinite — so
the result is `none` exactly when `old_max - old_min = 0`.  On a `nan`
input the arithmetic propagates `nan`; on an infinite input the sign of
the result follows the signs of `(new_max - new_min)` and
`(old_max - old_min)`, with `inf * 0 = nan`. -/
noncomputable def scale_value (value : Flt) (old_min old_max new_min new_max : ℝ) :
    Option Flt :=
  if old_max - old_min = 0 then none
  else some (match value with
    | Flt.nan => Flt.nan
    | Flt.fin x =>
        Flt.fin (new_min + (x - old_min) * (new_max - new_min) / (old_max - old_min))
    | Flt.pinf =>
        if new_max - new_min = 0 then Flt.nan
        else if 0 < (new_max - new_min) * (old_max - old_min) then Flt.pinf
        else Flt.ninf
    | Flt.ninf =>
        if new_max - new_min = 0 then Flt.nan
        else if 0 < (new_max - new_min) * (old_max - old_min) then Flt.ninf
        else Flt.pinf)

/-- `logistic_value(value)` from the source: `1 / (1 + math.exp(-clipped))`
where `clipped = clip_value(value, -50, 50)`.  The division is evaluated by
cases on `clipped`: for `nan`, `exp(-nan) = nan` and `1/(1+nan) = nan`; a
`pinf`/`ninf` clipped value cannot arise from `clip_value` with finite
bounds, but the arithmetic would give `1` resp. `0`; for a finite `x` in
`[-50, 50]` the exponential is finite and `1 + exp(-x) > 0`, so the
division is exact. -/
noncomputable def logistic_value (value : Flt) : Flt :=
  match clip_value value (-50) 50 with
  | Flt.nan => Flt.nan
  | Flt.pinf => Flt.fin 1
  | Flt.ninf => Flt.fin 0
  | Flt.fin x => Flt.fin (1 / (1 + Real.exp (-x)))

/-- The nine concrete `RewardTransform` subclasses, each carrying its
construction parameters. -/
inductive Transform where
  | EqualReward (nonzero_value : ℝ)
  | AbsoluteReward
  | NegatedReward
  | PowerReward (exponent : ℝ)
  | LogReward (offset : ℝ)
  | LinearClippedReward (bad_value good_value : ℝ)
  | SoftPlusReward (bad_value good_value sharpness : ℝ)
  | NegExpReward (bad_value good_value sharpness : ℝ)
  | SigmoidReward (bad_value good_value low_sharpness high_sharpness : ℝ)

/-- The element-wise body of each variant's `__call__` list comprehension,
applied to one error value; `none` models a raised exception. -/
noncomputable def elemFn : Transform → Flt → Option FRes
  | Transform.EqualReward nz, e =>
      some (FRes.flt (if pyisnan e then e
        else match e with
          | Flt.fin x => if x = 0 then Flt.fin 1 else Flt.fin nz
          | _ => Flt.fin nz))
  | Transform.AbsoluteReward, e => some (FRes.flt (pyabs e))
  | Transform.NegatedReward, e => some (FRes.flt (pyneg e))
  | Transform.PowerReward p, e => pypow e p
  | Transform.LogReward offset, e => (pylog (pyaddR e offset)).map FRes.flt
  | Transform.LinearClippedReward b g, e =>
      (scale_value e b g 0 1).map (fun w => FRes.flt (clip_value w 0 1))
  | Transform.SoftPlusReward b g s, e =>
      (scale_value e b g s 0).map
        (fun w => FRes.flt (clip_value (pymul2 (logistic_value w)) 0 1))
  | Transform.NegExpReward b g s, e =>
      (scale_value e b g s 0).map
        (fun w => FRes.flt (clip_value (pyexp (pyneg w)) 0 1))
  | Transform.SigmoidReward b g ls hs, e =>
      (scale_value e b g ls hs).map (fun w => FRes.flt (logistic_value w))

/-- Element-wise map over a list, failing as soon as one element fails —
the semantics of a Python list comprehension whose body may raise. -/
def mapOpt {α β : Type} (f : α → Option β) : List α → Option (List β)
  | [] => some []
  | a :: l => (f a).bind (fun b => (mapOpt f l).map (fun r => b :: r))

/-- A transform's `__call__`: the element-wise list comprehension. -/
noncomputable def applyTransform (t : Transform) (errors : List Flt) :
    Option (List FRes) :=
  mapOpt (elemFn t) errors

/-! ### Helper lemmas about the numeric primitives -/

theorem clip_value_of_nan (mn mx : ℝ) : clip_value Flt.nan mn mx = Flt.nan := rfl

theorem clip_value_fin (x mn mx : ℝ) :
    clip_value (Flt.fin x) mn mx = Flt.fin (max mn (min mx x)) := by
  by_cases h1 : x < mx
  · by_cases h2 : mn < x
    · simp [clip_value, pyisnan, pymin, pymax, h1, h2, min_eq_right h1.le,
        max_eq_right h2.le]
    · simp [clip_value, pyisnan, pymin, pymax, h1, h2, min_eq_right h1.le,
        max_eq_left (le_of_not_lt h2)]
  · by_cases h2 : mn < mx
    · simp [clip_value, pyisnan, pymin, pymax, h1, h2, min_eq_left (le_of_not_lt h1),
        max_eq_right h2.le]
    · simp [clip_value, pyisnan, pymin, pymax, h1, h2, min_eq_left (le_of_not_lt h1),
        max_eq_left (le_of_not_lt h2)]

theorem clip_value_pinf (mn mx : ℝ) : clip_value Flt.pinf mn mx = Flt.fin (max mn mx) := by
  by_cases h : mn < mx
  · simp [clip_value, pyisnan, pymin, pymax, h, max_eq_right h.le]
  · simp [clip_value, pyisnan, pymin, pymax, h, max_eq_left (le_of_not_lt h)]

theorem clip_value_ninf (mn mx : ℝ) : clip_value Flt.ninf mn mx = Flt.fin mn := rfl

theorem scale_value_fin (x a b c d : ℝ) (h : b - a ≠ 0) :
    scale_value (Flt.fin x) a b c d
      = some (Flt.fin (c + (x - a) * (d - c) / (b - a))) := by
  simp [scale_value, h]

theorem scale_value_of_nan (a b c d : ℝ) (h : b - a ≠ 0) :
    scale_value Flt.nan a b c d = some Flt.nan := by
  simp [scale_value, h]

theorem logistic_value_fin (x : ℝ) :
    logistic_value (Flt.fin x)
      = Flt.fin (1 / (1 + Real.exp (-(max (-50) (min 50 x))))) := by
  simp [logistic_value, clip_value_fin]

theorem logistic_value_of_nan : logistic_value Flt.nan = Flt.nan := rfl

/-! ### Helper lemmas about element-wise application -/

theorem mapOpt_eq_some_iff {α β : Type} {f : α → Option β} :
    ∀ {l : List α} {r : List β},
      mapOpt f l = some r ↔ List.Forall₂ (fun a b => f a = some b) l r
  | [], r => by
      simp [mapOpt, List.forall₂_nil_left_iff, eq_comm]
  | a :: l, r => by
      simp only [mapOpt, Option.bind_eq_some, Option.map_eq_some']
      constructor
      · rintro ⟨b, hb, r', hr', rfl⟩
        exact List.Forall₂.cons hb (mapOpt_eq_some_iff.mp hr')
      · intro h
        cases h with
        | cons hab htl => exact ⟨_, hab, _, mapOpt_eq_some_iff.mpr htl, rfl⟩

theorem mapOpt_length {α β : Type} {f : α → Option β} {l : List α} {r : List β}
    (h : mapOpt f l = some r) : r.length = l.length :=
  (mapOpt_eq_some_iff.mp h).length_eq.symm

theorem mapOpt_get {α β : Type} {f : α → Option β} {l : List α} {r : List β}
    (h : mapOpt f l = some r) (i : ℕ) (hi : i < l.length) :
    ∃ hri : i < r.length, f (l.get ⟨i, hi⟩) = some (r.get ⟨i, hri⟩) := by
  have h2 := mapOpt_eq_some_iff.mp h
  have hlen : i < r.length := by
    have := h2.length_eq
    omega
  exact ⟨hlen, h2.get hi hlen⟩

theorem mapOpt_eq_map {α β : Type} {f : α → Option β} {l : List α} {r : List β}
    (w : β) (h : mapOpt f l = some r) :
    r = l.map (fun a => (f a).getD w) := by
  induction l generalizing r with
  | nil =>
      simp [mapOpt] at h
      simp [← h]
  | cons a l ih =>
      simp only [mapOpt, Option.bind_eq_some, Option.map_eq_some'] at h
      obtain ⟨b, hb, r', hr', rfl⟩ := h
      simp [List.map_cons, hb, ih hr']

/-! ### Claim theorems -/

/-- C3: for every bounds `min_val ≤ max_val`, `clip_value` returns a `nan`
input unchanged; otherwise it returns a finite value unchanged when it lies
inside `[min_val, max_val]`, returns `min_val` when the value is below it
and `max_val` when the value is above it.  It is a total function (it is
defined on every input and never fails). -/
theorem clip_value_spec (mn mx : ℝ) (h : mn ≤ mx) :
    clip_value Flt.nan mn mx = Flt.nan ∧
    (∀ x : ℝ, mn ≤ x → x ≤ mx → clip_value (Flt.fin x) mn mx = Flt.fin x) ∧
    (∀ x : ℝ, x < mn → clip_value (Flt.fin x) mn mx = Flt.fin mn) ∧
    (∀ x : ℝ, mx < x → clip_value (Flt.fin x) mn mx = Flt.fin mx) := by
  refine ⟨rfl, ?_, ?_, ?_⟩
  · intro x h1 h2
    rw [clip_value_fin, min_eq_right h2, max_eq_right h1]
  · intro x h1
    rw [clip_value_fin, min_eq_right (h1.le.trans h), max_eq_left h1.le]
  · intro x h1
    rw [clip_value_fin, min_eq_left h1.le, max_eq_right h]

/-- Witness for C3 at bounds `0 ≤ 1`. -/
theorem clip_value_spec_witness :
    (0 : ℝ) ≤ 1 ∧
    (clip_value Flt.nan 0 1 = Flt.nan ∧
     (∀ x : ℝ, 0 ≤ x → x ≤ 1 → clip_value (Flt.fin x) 0 1 = Flt.fin x) ∧
     (∀ x : ℝ, x < 0 → clip_value (Flt.fin x) 0 1 = Flt.fin 0) ∧
     (∀ x : ℝ, 1 < x → clip_value (Flt.fin x) 0 1 = Flt.fin 1)) :=
  ⟨by norm_num, clip_value_spec 0 1 (by norm_num)⟩

/-- C4: `logistic_value` maps 0 to 1/2, is monotone non-decreasing on
finite inputs, and — because the argument is clamped into `[-50, 50]`
before exponentiation — satisfies `logistic x = logistic 50` for every
`x ≥ 50` and `logistic x = logistic (-50)` for every `x ≤ -50`; in
particular `logistic 1000 = logistic 50`. -/
theorem logistic_value_spec :
    logistic_value (Flt.fin 0) = Flt.fin (1 / 2) ∧
    (∀ x y : ℝ, x ≤ y → ∃ a b : ℝ,
      logistic_value (Flt.fin x) = Flt.fin a ∧
      logistic_value (Flt.fin y) = Flt.fin b ∧ a ≤ b) ∧
    (∀ x : ℝ, 50 ≤ x → logistic_value (Flt.fin x) = logistic_value (Flt.fin 50)) ∧
    (∀ x : ℝ, x ≤ -50 → logistic_value (Flt.fin x) = logistic_value (Flt.fin (-50))) ∧
    logistic_value (Flt.fin 1000) = logistic_value (Flt.fin 50) := by
  have hclamp50 : ∀ x : ℝ, 50 ≤ x → max (-50 : ℝ) (min 50 x) = 50 := by
    intro x hx
    rw [min_eq_left hx, max_eq_right (by norm_num : (-50:ℝ) ≤ 50)]
  refine ⟨?_, ?_, ?_, ?_, ?_⟩
  · rw [logistic_value_fin, min_eq_right (by norm_num : (0:ℝ) ≤ 50),
      max_eq_right (by norm_num : (-50:ℝ) ≤ 0)]
    rw [neg_zero, Real.exp_zero]
    norm_num
  · intro x y hxy
    refine ⟨_, _, logistic_value_fin x, logistic_value_fin y, ?_⟩
    have hc : max (-50 : ℝ) (min 50 x) ≤ max (-50) (min 50 y) :=
      max_le_max le_rfl (min_le_min le_rfl hxy)
    have he : Real.exp (-(max (-50 : ℝ) (min 50 y)))
        ≤ Real.exp (-(max (-50 : ℝ) (min 50 x))) :=
      Real.exp_le_exp.mpr (neg_le_neg hc)
    have hpos : (0:ℝ) < 1 + Real.exp (-(max (-50 : ℝ) (min 50 y))) := by positivity
    exact one_div_le_one_div_of_le hpos (by linarith)
  · intro x hx
    rw [logistic_value_fin, logistic_value_fin, hclamp50 x hx,
      hclamp50 50 le_rfl]
  · intro x hx
    have h1 : max (-50 : ℝ) (min 50 x) = -50 := by
      rw [min_eq_right (hx.trans (by norm_num)), max_eq_left hx]
    have h2 : max (-50 : ℝ) (min 50 (-50 : ℝ)) = -50 := by
      rw [min_eq_right (by norm_num : (-50:ℝ) ≤ 50), max_eq_left le_rfl]
    rw [logistic_value_fin, logistic_value_fin, h1, h2]
  · rw [logistic_value_fin, logistic_value_fin,
      hclamp50 1000 (by norm_num), hclamp50 50 le_rfl]

/-- Witness for C4's monotonicity conjunct at the concrete inputs 0 ≤ 1. -/
theorem logistic_value_spec_witness :
    (0 : ℝ) ≤ 1 ∧ ∃ a b : ℝ,
      logistic_value (Flt.fin 0) = Flt.fin a ∧
      logistic_value (Flt.fin 1) = Flt.fin b ∧ a ≤ b :=
  ⟨by norm_num, logistic_value_spec.2.1 0 1 (by norm_num)⟩

/-- C5: for distinct old bounds, `scale_value` is exact at the endpoints —
`old_min` maps to `new_min` and `old_max` to `new_max` — and is affine:
the point a fraction `t` of the way along the old interval maps to the
point the same fraction `t` along the new interval, for every real `t`
(interpolation for `t` in `[0,1]`, extrapolation outside). -/
theorem scale_value_spec (old_min old_max new_min new_max : ℝ)
    (h : old_min ≠ old_max) :
    scale_value (Flt.fin old_min) old_min old_max new_min new_max
      = some (Flt.fin new_min) ∧
    scale_value (Flt.fin old_max) old_min old_max new_min new_max
      = some (Flt.fin new_max) ∧
    (∀ t : ℝ, scale_value (Flt.fin (old_min + t * (old_max - old_min)))
        old_min old_max new_min new_max
      = some (Flt.fin (new_min + t * (new_max - new_min)))) := by
  have hd : old_max - old_min ≠ 0 := sub_ne_zero_of_ne (Ne.symm h)
  refine ⟨?_, ?_, ?_⟩
  · rw [scale_value_fin _ _ _ _ _ hd]
    simp
  · rw [scale_value_fin _ _ _ _ _ hd]
    have : new_min + (old_max - old_min) * (new_max - new_min) / (old_max - old_min)
        = new_max := by
      field_simp
    rw [this]
  · intro t
    rw [scale_value_fin _ _ _ _ _ hd]
    have : new_min + (old_min + t * (old_max - old_min) - old_min)
          * (new_max - new_min) / (old_max - old_min)
        = new_min + t * (new_max - new_min) := by
      field_simp
      ring
    rw [this]

/-- Witness for C5 at `old_min = 0`, `old_max = 1`, `new_min = 2`,
`new_max = 5`. -/
theorem scale_value_spec_witness :
    (0 : ℝ) ≠ 1 ∧
    (scale_value (Flt.fin 0) 0 1 2 5 = some (Flt.fin 2) ∧
     scale_value (Flt.fin 1) 0 1 2 5 = some (Flt.fin 5) ∧
     (∀ t : ℝ, scale_value (Flt.fin (0 + t * (1 - 0))) 0 1 2 5
        = some (Flt.fin (2 + t * (5 - 2))))) :=
  ⟨by norm_num, scale_value_spec 0 1 2 5 (by norm_num)⟩

/-- C8: `LinearClippedReward(bad_value=1, good_value=0)` applied to
`[1, 0, 0.5, 2]` returns exactly `[0, 1, 0.5, 0]`: the error at
`bad_value` maps to 0, the error at `good_value` maps to 1, `0.5` maps to
`0.5`, and `2` rescales to `-1` and is clipped up to 0. -/
theorem linearClippedReward_example :
    applyTransform (Transform.LinearClippedReward 1 0)
        [Flt.fin 1, Flt.fin 0, Flt.fin (1/2), Flt.fin 2]
      = some [FRes.flt (Flt.fin 0), FRes.flt (Flt.fin 1),
              FRes.flt (Flt.fin (1/2)), FRes.flt (Flt.fin 0)] := by
  have hd : (0:ℝ) - 1 ≠ 0 := by norm_num
  have step : ∀ x v : ℝ, 0 + (x - 1) * (1 - 0) / (0 - 1) = v → 0 ≤ v → v ≤ 1 →
      elemFn (Transform.LinearClippedReward 1 0) (Flt.fin x)
        = some (FRes.flt (Flt.fin v)) := by
    intro x v hv h0 h1
    simp only [elemFn]
    rw [scale_value_fin _ _ _ _ _ hd, Option.map_some', hv, clip_value_fin,
      min_eq_right h1, max_eq_right h0]
  have e1 := step 1 0 (by norm_num) (by norm_num) (by norm_num)
  have e2 := step 0 1 (by norm_num) (by norm_num) (by norm_num)
  have e3 := step (1/2) (1/2) (by norm_num) (by norm_num) (by norm_num)
  have e4 : elemFn (Transform.LinearClippedReward 1 0) (Flt.fin 2)
      = some (FRes.flt (Flt.fin 0)) := by
    simp only [elemFn]
    rw [scale_value_fin _ _ _ _ _ hd, Option.map_some']
    have hv : (0:ℝ) + (2 - 1) * (1 - 0) / (0 - 1) = -1 := by norm_num
    rw [hv, clip_value_fin, min_eq_right (by norm_num : (-1:ℝ) ≤ 1),
      max_eq_left (by norm_num : (-1:ℝ) ≤ 0)]
  simp only [applyTransform, mapOpt, e1, e2, e3, e4, Option.some_bind,
    Option.map_some']

/-- C10: `logistic_value` is total and never fails: for every non-`nan`
input the clipped argument is a finite value in `[-50, 50]` (so the
exponential never overflows) and the result is the finite logistic of it;
a `+inf` input gives the same result as input `50`, a `-inf` input the
same result as input `-50`, and a `nan` input yields `nan`. -/
theorem logistic_value_total_spec :
    (∀ v : Flt, v ≠ Flt.nan → ∃ c : ℝ,
        clip_value v (-50) 50 = Flt.fin c ∧ -50 ≤ c ∧ c ≤ 50 ∧
        logistic_value v = Flt.fin (1 / (1 + Real.exp (-c)))) ∧
    logistic_value Flt.pinf = logistic_value (Flt.fin 50) ∧
    logistic_value Flt.ninf = logistic_value (Flt.fin (-50)) ∧
    logistic_value Flt.nan = Flt.nan := by
  have hmax : max (-50 : ℝ) (50 : ℝ) = 50 :=
    max_eq_right (by norm_num)
  have hc50 : max (-50 : ℝ) (min 50 (50:ℝ)) = 50 := by
    rw [min_eq_left le_rfl]; exact hmax
  have hcm50 : max (-50 : ℝ) (min 50 (-50:ℝ)) = -50 := by
    rw [min_eq_right (by norm_num : (-50:ℝ) ≤ 50), max_eq_left le_rfl]
  have hlpinf : logistic_value Flt.pinf = Flt.fin (1 / (1 + Real.exp (-(50:ℝ)))) := by
    simp only [logistic_value, clip_value_pinf, hmax]
  have hlninf : logistic_value Flt.ninf = Flt.fin (1 / (1 + Real.exp (-(-50:ℝ)))) := by
    simp only [logistic_value, clip_value_ninf]
  refine ⟨?_, ?_, ?_, rfl⟩
  · intro v hv
    cases v with
    | nan => exact absurd rfl hv
    | pinf =>
        exact ⟨50, by rw [clip_value_pinf, hmax], by norm_num, le_rfl, hlpinf⟩
    | ninf =>
        exact ⟨-50, clip_value_ninf _ _, le_rfl, by norm_num, hlninf⟩
    | fin x =>
        refine ⟨max (-50) (min 50 x), clip_value_fin x _ _, le_max_left _ _,
          max_le (by norm_num) (min_le_left _ _), logistic_value_fin x⟩
  · rw [hlpinf, logistic_value_fin, hc50]
  · rw [hlninf, logistic_value_fin, hcm50]

/-- Witness for C10's universally quantified first conjunct, at the input
`+inf` (discharging the non-`nan` hypothesis there). -/
theorem logistic_value_total_spec_witness :
    Flt.pinf ≠ Flt.nan ∧
    (∃ c : ℝ, clip_value Flt.pinf (-50) 50 = Flt.fin c ∧ -50 ≤ c ∧ c ≤ 50 ∧
      logistic_value Flt.pinf = Flt.fin (1 / (1 + Real.exp (-c)))) :=
  ⟨fun h => Flt.noConfusion h,
   logistic_value_total_spec.1 Flt.pinf (fun h => Flt.noConfusion h)⟩

/-- C7: `LogReward` returns `ln(error + offset)` per element; on a finite
error it fails (raising `ValueError`, modelled as `none`) exactly when
`error + offset ≤ 0` and otherwise returns the finite logarithm; a `nan`
error yields `nan` in place without failing. -/
theorem logReward_spec (offset : ℝ) :
    (∀ x : ℝ, x + offset ≤ 0 →
      applyTransform (Transform.LogReward offset) [Flt.fin x] = none) ∧
    (∀ x : ℝ, 0 < x + offset →
      applyTransform (Transform.LogReward offset) [Flt.fin x]
        = some [FRes.flt (Flt.fin (Real.log (x + offset)))]) ∧
    applyTransform (Transform.LogReward offset) [Flt.nan]
      = some [FRes.flt Flt.nan] := by
  refine ⟨?_, ?_, ?_⟩
  · intro x hx
    simp [applyTransform, mapOpt, elemFn, pyaddR, pylog, hx]
  · intro x hx
    simp [applyTransform, mapOpt, elemFn, pyaddR, pylog, not_le.mpr hx]
  · simp [applyTransform, mapOpt, elemFn, pyaddR, pylog]

/-- Witness for C7 at `offset = 1/10000`, evaluating the failing branch at
error `-1`, the succeeding branch at error `1`, and the `nan` branch. -/
theorem logReward_spec_witness :
    ((-1 : ℝ) + 1/10000 ≤ 0 ∧
      applyTransform (Transform.LogReward (1/10000)) [Flt.fin (-1)] = none) ∧
    ((0 : ℝ) < 1 + 1/10000 ∧
      applyTransform (Transform.LogReward (1/10000)) [Flt.fin 1]
        = some [FRes.flt (Flt.fin (Real.log (1 + 1/10000)))]) ∧
    applyTransform (Transform.LogReward (1/10000)) [Flt.nan]
      = some [FRes.flt Flt.nan] :=
  ⟨⟨by norm_num, (logReward_spec (1/10000)).1 (-1) (by norm_num)⟩,
   ⟨by norm_num, (logReward_spec (1/10000)).2.1 1 (by norm_num)⟩,
   (logReward_spec (1/10000)).2.2⟩

/-- C6: every `SigmoidReward` instance with `bad_value ≠ good_value`, on
every finite error, produces an element strictly inside `(0, 1)`, although
no clipping is applied: the bound comes from the logistic alone. -/
theorem sigmoidReward_open_range (b g ls hs : ℝ) (hbg : b ≠ g) (x : ℝ) :
    ∃ r : ℝ,
      applyTransform (Transform.SigmoidReward b g ls hs) [Flt.fin x]
        = some [FRes.flt (Flt.fin r)] ∧ 0 < r ∧ r < 1 := by
  have hd : g - b ≠ 0 := sub_ne_zero_of_ne (Ne.symm hbg)
  refine ⟨1 / (1 + Real.exp (-(max (-50)
      (min 50 (ls + (x - b) * (hs - ls) / (g - b)))))), ?_, ?_, ?_⟩
  · simp only [applyTransform, mapOpt, elemFn]
    rw [scale_value_fin _ _ _ _ _ hd, Option.map_some', logistic_value_fin]
    simp only [Option.some_bind, Option.map_some']
  · positivity
  · rw [div_lt_one (by positivity)]
    have := Real.exp_pos (-(max (-50:ℝ)
      (min 50 (ls + (x - b) * (hs - ls) / (g - b)))))
    linarith

/-- Witness for C6 at `bad_value = 0`, `good_value = 1`, the default
sharpness signs, and error `0`. -/
theorem sigmoidReward_open_range_witness :
    (0 : ℝ) ≠ 1 ∧
    (∃ r : ℝ,
      applyTransform (Transform.SigmoidReward 0 1 (-Real.log 19) (Real.log 19))
          [Flt.fin 0]
        = some [FRes.flt (Flt.fin r)] ∧ 0 < r ∧ r < 1) :=
  ⟨by norm_num,
   sigmoidReward_open_range 0 1 (-Real.log 19) (Real.log 19) (by norm_num) 0⟩

/-- C1 counterexample: the claim fails for `PowerReward` with exponent 0,
because Python's `nan ** 0` is `1.0`, so `apply([nan])` is `[1.0]`, not
`[nan]`; it also fails for `LinearClippedReward` with equal thresholds,
where `apply([nan])` raises `ZeroDivisionError` instead of returning. -/
theorem nan_passthrough_counterexample :
    applyTransform (Transform.PowerReward 0) [Flt.nan]
      = some [FRes.flt (Flt.fin 1)] ∧
    FRes.flt (Flt.fin 1) ≠ FRes.flt Flt.nan ∧
    applyTransform (Transform.LinearClippedReward 0 0) [Flt.nan] = none := by
  refine ⟨?_, ?_, ?_⟩
  · simp [applyTransform, mapOpt, elemFn, pypow]
  · intro h
    injection h with h'
    exact Flt.noConfusion h'
  · simp [applyTransform, mapOpt, elemFn, scale_value]

/-- C1 amended: every variant maps `[nan]` to `[nan]` for every choice of
construction parameters, *except* that `PowerReward` requires a nonzero
exponent (Python's `nan ** 0` is `1.0`) and the four rescaling variants
(`LinearClippedReward`, `SoftPlusReward`, `NegExpReward`,
`SigmoidReward`) require `bad_value ≠ good_value` (equal thresholds raise
`ZeroDivisionError` even on a `nan` input). -/
theorem nan_passthrough (t : Transform)
    (hpow : ∀ p, t = Transform.PowerReward p → p ≠ 0)
    (hlin : ∀ b g, t = Transform.LinearClippedReward b g → b ≠ g)
    (hsp : ∀ b g s, t = Transform.SoftPlusReward b g s → b ≠ g)
    (hne : ∀ b g s, t = Transform.NegExpReward b g s → b ≠ g)
    (hsg : ∀ b g ls hs, t = Transform.SigmoidReward b g ls hs → b ≠ g) :
    applyTransform t [Flt.nan] = some [FRes.flt Flt.nan] := by
  cases t with
  | EqualReward nz => simp [applyTransform, mapOpt, elemFn, pyisnan]
  | AbsoluteReward => simp [applyTransform, mapOpt, elemFn, pyabs]
  | NegatedReward => simp [applyTransform, mapOpt, elemFn, pyneg]
  | PowerReward p =>
      have hp := hpow p rfl
      simp [applyTransform, mapOpt, elemFn, pypow, hp]
  | LogReward offset =>
      simp [applyTransform, mapOpt, elemFn, pyaddR, pylog]
  | LinearClippedReward b g =>
      have hd : g - b ≠ 0 := sub_ne_zero_of_ne (Ne.symm (hlin b g rfl))
      simp [applyTransform, mapOpt, elemFn, scale_value_of_nan _ _ _ _ hd,
        clip_value_of_nan]
  | SoftPlusReward b g s =>
      have hd : g - b ≠ 0 := sub_ne_zero_of_ne (Ne.symm (hsp b g s rfl))
      simp [applyTransform, mapOpt, elemFn, scale_value_of_nan _ _ _ _ hd,
        logistic_value_of_nan, pymul2, clip_value_of_nan]
  | NegExpReward b g s =>
      have hd : g - b ≠ 0 := sub_ne_zero_of_ne (Ne.symm (hne b g s rfl))
      simp [applyTransform, mapOpt, elemFn, scale_value_of_nan _ _ _ _ hd,
        pyneg, pyexp, clip_value_of_nan]
  | SigmoidReward b g ls hs =>
      have hd : g - b ≠ 0 := sub_ne_zero_of_ne (Ne.symm (hsg b g ls hs rfl))
      simp [applyTransform, mapOpt, elemFn, scale_value_of_nan _ _ _ _ hd,
        logistic_value_of_nan]

/-- Witness for the amended C1 at `PowerReward` with exponent 1. -/
theorem nan_passthrough_witness :
    (∀ p : ℝ, Transform.PowerReward 1 = Transform.PowerReward p → p ≠ 0) ∧
    (∀ b g : ℝ, Transform.PowerReward 1 = Transform.LinearClippedReward b g → b ≠ g) ∧
    (∀ b g s : ℝ, Transform.PowerReward 1 = Transform.SoftPlusReward b g s → b ≠ g) ∧
    (∀ b g s : ℝ, Transform.PowerReward 1 = Transform.NegExpReward b g s → b ≠ g) ∧
    (∀ b g ls hs : ℝ, Transform.PowerReward 1 = Transform.SigmoidReward b g ls hs → b ≠ g) ∧
    applyTransform (Transform.PowerReward 1) [Flt.nan] = some [FRes.flt Flt.nan] := by
  have h1 : ∀ p : ℝ, Transform.PowerReward (1:ℝ) = Transform.PowerReward p → p ≠ 0 := by
    intro p h
    injection h with h'
    rw [← h']
    norm_num
  have h2 : ∀ b g : ℝ, Transform.PowerReward (1:ℝ)
      = Transform.LinearClippedReward b g → b ≠ g :=
    fun b g h => Transform.noConfusion h
  have h3 : ∀ b g s : ℝ, Transform.PowerReward (1:ℝ)
      = Transform.SoftPlusReward b g s → b ≠ g :=
    fun b g s h => Transform.noConfusion h
  have h4 : ∀ b g s : ℝ, Transform.PowerReward (1:ℝ)
      = Transform.NegExpReward b g s → b ≠ g :=
    fun b g s h => Transform.noConfusion h
  have h5 : ∀ b g ls hs : ℝ, Transform.PowerReward (1:ℝ)
      = Transform.SigmoidReward b g ls hs → b ≠ g :=
    fun b g ls hs h => Transform.noConfusion h
  exact ⟨h1, h2, h3, h4, h5, nan_passthrough _ h1 h2 h3 h4 h5⟩

/-- C2 counterexample: not every variant is total — `LogReward` with the
default offset `1e-4` raises `ValueError` (modelled as `none`) on the
input sequence `[-1]`, because `-1 + 1e-4 ≤ 0`. -/
theorem total_function_counterexample :
    applyTransform (Transform.LogReward (1/10000)) [Flt.fin (-1)] = none := by
  have hx : (-1 : ℝ) + 1/10000 ≤ 0 := by norm_num
  simp [applyTransform, mapOpt, elemFn, pyaddR, pylog, hx]
  norm_num

/-- C2 amended: every variant computes element-wise and independently —
whenever `apply` returns a result it has the same length as the input,
element `i` of the output is the image of element `i` of the input under
the variant's element function, and permuting the input permutes the
output identically — but the variants are not all total: `LogReward`
fails when `error + offset ≤ 0`, the four rescaling variants fail when
`bad_value = good_value`, and `PowerReward` fails on a zero error with a
negative exponent. -/
theorem apply_elementwise (t : Transform) (es : List Flt) (res : List FRes)
    (h : applyTransform t es = some res) :
    res.length = es.length ∧
    (∀ i (hi : i < es.length), ∃ hri : i < res.length,
        elemFn t (es.get ⟨i, hi⟩) = some (res.get ⟨i, hri⟩)) ∧
    (∀ es' res', es.Perm es' → applyTransform t es' = some res' →
        res.Perm res') := by
  simp only [applyTransform] at h
  refine ⟨mapOpt_length h, fun i hi => mapOpt_get h i hi, ?_⟩
  intro es' res' hperm h'
  simp only [applyTransform] at h'
  rw [mapOpt_eq_map (FRes.flt Flt.nan) h, mapOpt_eq_map (FRes.flt Flt.nan) h']
  exact hperm.map _

/-- Witness for the amended C2 at `AbsoluteReward` on the input `[-3]`. -/
theorem apply_elementwise_witness :
    applyTransform Transform.AbsoluteReward [Flt.fin (-3)]
        = some [FRes.flt (Flt.fin 3)] ∧
    (([FRes.flt (Flt.fin 3)] : List FRes).length
        = ([Flt.fin (-3)] : List Flt).length ∧
     (∀ i (hi : i < ([Flt.fin (-3)] : List Flt).length),
        ∃ hri : i < ([FRes.flt (Flt.fin 3)] : List FRes).length,
          elemFn Transform.AbsoluteReward (([Flt.fin (-3)] : List Flt).get ⟨i, hi⟩)
            = some (([FRes.flt (Flt.fin 3)] : List FRes).get ⟨i, hri⟩)) ∧
     (∀ es' res', ([Flt.fin (-3)] : List Flt).Perm es' →
        applyTransform Transform.AbsoluteReward es' = some res' →
        ([FRes.flt (Flt.fin 3)] : List FRes).Perm res')) := by
  have h : applyTransform Transform.AbsoluteReward [Flt.fin (-3)]
      = some [FRes.flt (Flt.fin 3)] := by
    simp only [applyTransform, mapOpt, elemFn, pyabs, Option.some_bind,
      Option.map_some']
    norm_num
  exact ⟨h, apply_elementwise _ _ _ h⟩

/-- C9 counterexample: `PowerReward` with exponent `1/2` applied to the
real error `-1` returns the *complex* number `i` (Python's float `**`
returns a complex value for a negative base with a non-integral
exponent), which is not a real float. -/
theorem real_outputs_counterexample :
    applyTransform (Transform.PowerReward (1/2)) [Flt.fin (-1)]
      = some [FRes.cplx 0 1] ∧
    (∀ v : Flt, FRes.cplx 0 1 ≠ FRes.flt v) := by
  constructor
  · have hfl0 : ⌊(1/2 : ℝ)⌋ = 0 := by
      apply Int.floor_eq_zero_iff.mpr
      rw [Set.mem_Ico]
      norm_num
    have hfl : ¬((⌊(1/2 : ℝ)⌋ : ℝ) = 1/2) := by
      rw [hfl0]
      norm_num
    have he : elemFn (Transform.PowerReward (1/2)) (Flt.fin (-1))
        = some (FRes.cplx 0 1) := by
      simp only [elemFn, pypow]
      rw [if_neg (by norm_num : ¬((1:ℝ)/2 = 0)),
        if_neg (by norm_num : ¬((-1:ℝ) = 0)),
        if_neg (by norm_num : ¬((0:ℝ) < -1)), if_neg hfl]
      have hone : Real.rpow 1 (1/2) = 1 := Real.one_rpow _
      rw [neg_neg, hone,
        show Real.pi * (1/2) = Real.pi / 2 by ring,
        Real.cos_pi_div_two, Real.sin_pi_div_two]
      norm_num
    simp only [applyTransform, mapOpt, he, Option.some_bind, Option.map_some']
  · intro v h
    exact FRes.noConfusion h

/-- The element function of every variant, on a finite error, returns a
real (finite float) element whenever it returns at all — except that
`PowerReward` needs the error nonnegative or the exponent integral. -/
theorem elemFn_fin_real (t : Transform) (x : ℝ) (r : FRes)
    (hpow : ∀ p, t = Transform.PowerReward p → 0 ≤ x ∨ (⌊p⌋ : ℝ) = p)
    (h : elemFn t (Flt.fin x) = some r) :
    ∃ y : ℝ, r = FRes.flt (Flt.fin y) := by
  cases t with
  | EqualReward nz =>
      simp only [elemFn, pyisnan] at h
      by_cases hx : x = 0 <;> simp [hx] at h <;> exact ⟨_, h.symm⟩
  | AbsoluteReward =>
      simp only [elemFn, pyabs] at h
      exact ⟨|x|, (Option.some_inj.mp h).symm⟩
  | NegatedReward =>
      simp only [elemFn, pyneg] at h
      exact ⟨-x, (Option.some_inj.mp h).symm⟩
  | PowerReward p =>
      simp only [elemFn, pypow] at h
      by_cases hp0 : p = 0
      · rw [if_pos hp0] at h
        exact ⟨1, (Option.some_inj.mp h).symm⟩
      · rw [if_neg hp0] at h
        by_cases hx0 : x = 0
        · rw [if_pos hx0] at h
          by_cases hppos : 0 < p
          · rw [if_pos hppos] at h
            exact ⟨0, (Option.some_inj.mp h).symm⟩
          · rw [if_neg hppos] at h
            exact absurd h (Option.noConfusion)
        · rw [if_neg hx0] at h
          by_cases hxpos : 0 < x
          · rw [if_pos hxpos] at h
            exact ⟨Real.rpow x p, (Option.some_inj.mp h).symm⟩
          · rw [if_neg hxpos] at h
            have hint : (⌊p⌋ : ℝ) = p := by
              rcases hpow p rfl with hge | hint
              · exact absurd (lt_of_le_of_ne hge (Ne.symm hx0)) hxpos
              · exact hint
            rw [if_pos hint] at h
            exact ⟨x ^ ⌊p⌋, (Option.some_inj.mp h).symm⟩
  | LogReward offset =>
      simp only [elemFn, pyaddR, pylog] at h
      by_cases hle : x + offset ≤ 0
      · rw [if_pos hle] at h
        simp at h
      · rw [if_neg hle] at h
        simp only [Option.map_some'] at h
        exact ⟨Real.log (x + offset), (Option.some_inj.mp h).symm⟩
  | LinearClippedReward b g =>
      simp only [elemFn] at h
      by_cases hd : g - b = 0
      · rw [scale_value, if_pos hd] at h
        simp at h
      · rw [scale_value_fin _ _ _ _ _ hd, Option.map_some', clip_value_fin] at h
        exact ⟨_, (Option.some_inj.mp h).symm⟩
  | SoftPlusReward b g s =>
      simp only [elemFn] at h
      by_cases hd : g - b = 0
      · rw [scale_value, if_pos hd] at h
        simp at h
      · rw [scale_value_fin _ _ _ _ _ hd, Option.map_some', logistic_value_fin,
          pymul2, clip_value_fin] at h
        exact ⟨_, (Option.some_inj.mp h).symm⟩
  | NegExpReward b g s =>
      simp only [elemFn] at h
      by_cases hd : g - b = 0
      · rw [scale_value, if_pos hd] at h
        simp at h
      · rw [scale_value_fin _ _ _ _ _ hd, Option.map_some', pyneg, pyexp,
          clip_value_fin] at h
        exact ⟨_, (Option.some_inj.mp h).symm⟩
  | SigmoidReward b g ls hs =>
      simp only [elemFn] at h
      by_cases hd : g - b = 0
      · rw [scale_value, if_pos hd] at h
        simp at h
      · rw [scale_value_fin _ _ _ _ _ hd, Option.map_some', logistic_value_fin] at h
        exact ⟨_, (Option.some_inj.mp h).symm⟩

/-- C9 amended: on a sequence of real (finite, non-`nan`) errors, every
element of a returned result sequence is a real number for every variant —
*except* that for `PowerReward` this additionally requires each error to
be nonnegative or the exponent to be an integer: a negative error with a
non-integral exponent makes Python's `**` return a complex number. -/
theorem real_outputs (t : Transform) (es : List Flt) (res : List FRes)
    (hfin : ∀ e ∈ es, ∃ x : ℝ, e = Flt.fin x)
    (hpow : ∀ p, t = Transform.PowerReward p →
      ∀ x : ℝ, Flt.fin x ∈ es → 0 ≤ x ∨ (⌊p⌋ : ℝ) = p)
    (h : applyTransform t es = some res) :
    ∀ r ∈ res, ∃ y : ℝ, r = FRes.flt (Flt.fin y) := by
  induction es generalizing res with
  | nil =>
      simp only [applyTransform, mapOpt, Option.some_inj] at h
      rw [← h]
      simp
  | cons a l ih =>
      simp only [applyTransform, mapOpt, Option.bind_eq_some,
        Option.map_eq_some'] at h
      obtain ⟨b, hb, r', hr', rfl⟩ := h
      obtain ⟨x, rfl⟩ := hfin a (List.mem_cons_self a l)
      intro r hr
      rcases List.mem_cons.mp hr with rfl | hrmem
      · exact elemFn_fin_real t x r
          (fun p hp => hpow p hp x (List.mem_cons_self _ _)) hb
      · exact ih r' (fun e he => hfin e (List.mem_cons_of_mem _ he))
          (fun p hp y hy => hpow p hp y (List.mem_cons_of_mem _ hy)) hr' r hrmem

/-- Witness for the amended C9 at `AbsoluteReward` on the input `[2]`. -/
theorem real_outputs_witness :
    (∀ e ∈ ([Flt.fin 2] : List Flt), ∃ x : ℝ, e = Flt.fin x) ∧
    (∀ p : ℝ, Transform.AbsoluteReward = Transform.PowerReward p →
      ∀ x : ℝ, Flt.fin x ∈ ([Flt.fin 2] : List Flt) → 0 ≤ x ∨ (⌊p⌋ : ℝ) = p) ∧
    applyTransform Transform.AbsoluteReward [Flt.fin 2]
      = some [FRes.flt (Flt.fin 2)] ∧
    (∀ r ∈ ([FRes.flt (Flt.fin 2)] : List FRes),
      ∃ y : ℝ, r = FRes.flt (Flt.fin y)) := by
  have h1 : ∀ e ∈ ([Flt.fin 2] : List Flt), ∃ x : ℝ, e = Flt.fin x := by
    simp
  have h2 : ∀ p : ℝ, Transform.AbsoluteReward = Transform.PowerReward p →
      ∀ x : ℝ, Flt.fin x ∈ ([Flt.fin 2] : List Flt) → 0 ≤ x ∨ (⌊p⌋ : ℝ) = p :=
    fun p hp => Transform.noConfusion hp
  have h3 : applyTransform Transform.AbsoluteReward [Flt.fin 2]
      = some [FRes.flt (Flt.fin 2)] := by
    simp only [applyTransform, mapOpt, elemFn, pyabs, Option.some_bind,
      Option.map_some']
    norm_num
  exact ⟨h1, h2, h3, real_outputs _ _ _ h1 h2 h3⟩

end Transforms
